import Mathlib

/-!
Verification of `src/daily-photo/photo-selection.js`.

The script selects one photo per day: it derives a cycle seed and a day
index from the date, shuffles the collection with an LCG-seeded
Fisher-Yates shuffle, and picks the day's slot of the shuffled array.

The embedding mirrors the JavaScript semantics that matter here:
* a JS array is modelled as an element count together with an
  integer-indexed property store (`JSArray`); reading a missing index
  yields `undefined`, modelled as `none`, and writing a negative index
  stores a property without changing the element count;
* the JS `%` operator is the truncated remainder `Int.tmod` (its result
  takes the sign of the dividend);
* `Math.floor` of an exact quotient is the flooring division `Int.fdiv`;
  the quantities involved are far below 2^53, so double-precision
  evaluation of these expressions is exact and the integer reading is
  faithful;
* `null` and `undefined` are kept distinct through `JSResult`.
-/

namespace PhotoSelection

/-- A JS array object: `len` element slots `0 .. len-1`, plus an
integer-keyed property store; `store k = none` models `undefined`. -/
structure JSArray (α : Type) where
  len : Nat
  store : Int → Option α

/-- The array object a plain JS array literal holds: slot `k` is the
`k`-th list element, every other key is `undefined`. -/
def JSArray.ofList (l : List α) : JSArray α :=
  ⟨l.length, fun k => if 0 ≤ k then l[k.toNat]? else none⟩

/-- Read back the element slots `0 .. len-1` of an array object. -/
def JSArray.toList (a : JSArray α) : List (Option α) :=
  (List.range a.len).map fun i => a.store (Int.ofNat i)

/-- The spread copy `[...array]` (line 36): it copies the element slots
only; properties outside `0 .. len-1` are not carried over. -/
def JSArray.copy (a : JSArray α) : JSArray α :=
  ⟨a.len, fun k => if 0 ≤ k ∧ k < (a.len : Int) then a.store k else none⟩

/-- One step of the generator (line 41):
`random = (random * 9301 + 49297) % 233280` with the JS truncated `%`. -/
def lcgStep (random : Int) : Int :=
  Int.tmod (random * 9301 + 49297) 233280

/-- The destructuring swap `[arr[i], arr[j]] = [arr[j], arr[i]]`
(line 48) on the property store: both reads happen before both writes. -/
def jsSwap (st : Int → Option α) (i j : Int) : Int → Option α :=
  fun k => if k = i then st j else if k = j then st i else st k

/-- The Fisher-Yates loop of lines 46-49, running the JS index `i`
from the argument down to `1`; `j = Math.floor(seededRandom() * (i + 1))`
is the exact floor `Int.fdiv (random * (i + 1)) 233280` of the fraction
`random / 233280` scaled by `i + 1`. -/
def fyLoop (st : Int → Option α) (random : Int) : Nat → (Int → Option α) × Int
  | 0 => (st, random)
  | i + 1 =>
    let r := lcgStep random
    let j := Int.fdiv (r * ((i : Int) + 2)) 233280
    fyLoop (jsSwap st ((i : Int) + 1) j) r i

/-- `seededShuffle` (lines 35-52): copy the array, then run the
Fisher-Yates loop from index `length - 1` down to `1`. -/
def seededShuffle (array : JSArray α) (seed : Int) : JSArray α :=
  let arr := array.copy
  ⟨arr.len, (fyLoop arr.store seed (arr.len - 1)).1⟩

/-- Milliseconds per day, `1000 * 60 * 60 * 24`. -/
def msPerDay : Int := 86400000

/-- `Math.floor(date.getTime() / (1000*60*60*24))` (lines 63 and 76);
`t` is the date's epoch-milliseconds value. -/
def daysSinceEpoch (t : Int) : Int :=
  Int.fdiv t msPerDay

/-- `getCycleSeed` (lines 61-67): `Math.floor(daysSinceEpoch / arrayLength)`. -/
def getCycleSeed (t : Int) (arrayLength : Nat) : Int :=
  Int.fdiv (daysSinceEpoch t) arrayLength

/-- `getDayInCycle` (lines 75-78): `daysSinceEpoch % arrayLength` with
the JS truncated `%`. -/
def getDayInCycle (t : Int) (arrayLength : Nat) : Int :=
  Int.tmod (daysSinceEpoch t) arrayLength

/-- The observable outcome of `selectByDate`: the explicit `null` of the
empty-collection branch, the `undefined` of an absent index, or a value. -/
inductive JSResult (α : Type) where
  | null
  | undef
  | value (a : α)
deriving DecidableEq

/-- `selectByDate` (lines 87-95): `null` on an empty array, otherwise
the `dayIndex` slot of the shuffled array, which is `undefined` when
that index holds no value. -/
def selectByDate (array : List α) (t : Int) : JSResult α :=
  if array.length = 0 then JSResult.null
  else
    match (seededShuffle (JSArray.ofList array)
        (getCycleSeed t array.length)).store (getDayInCycle t array.length) with
    | some a => JSResult.value a
    | none => JSResult.undef

/-! ### The specification's reference shuffle

`specShuffle` follows the words of the spec (section 4.2) for the
refinement claim: state steps by `(state * 9301 + 49297) mod 233280`
with the next fraction `state / 233280` lying in `[0, 1)` — hence the
Euclidean `Int.emod` — and a reverse Fisher-Yates loop draws
`j = floor(fraction * (i + 1))` and swaps positions `i` and `j`. -/

/-- Swap two positions of a list; out-of-range indices leave it unchanged
(the reference loop only ever uses in-range indices). -/
def listSwap (l : List α) (i j : Nat) : List α :=
  match l[i]?, l[j]? with
  | some x, some y => (l.set i y).set j x
  | _, _ => l

/-- Generator step as the spec words it: fraction in `[0, 1)`. -/
def specLcgStep (state : Int) : Int :=
  Int.emod (state * 9301 + 49297) 233280

/-- Reference Fisher-Yates loop over a plain list. -/
def specFyLoop (l : List α) (state : Int) : Nat → List α × Int
  | 0 => (l, state)
  | i + 1 =>
    let s := specLcgStep state
    let j := (Int.fdiv (s * ((i : Int) + 2)) 233280).toNat
    specFyLoop (listSwap l (i + 1) j) s i

/-- The spec's reference shuffle algorithm. -/
def specShuffle (l : List α) (seed : Int) : List α :=
  (specFyLoop l seed (l.length - 1)).1

/-- A property store and a plain list agree: element slots hold the
list entries, every other key is `undefined`. -/
def StoreRel (st : Int → Option α) (l : List α) : Prop :=
  ∀ k : Int, st k = if 0 ≤ k then l[k.toNat]? else none

/-- The empty array object. -/
def emptyJSArray : JSArray α := ⟨0, fun _ => none⟩

/-- A call `seededShuffle(heap[r], seed)` observed at the heap level:
the callee allocates its result (`[...array]` and the loop never write
through the argument reference) and returns the fresh reference. -/
def seededShuffleCall (heap : List (JSArray α)) (r : Nat) (seed : Int) :
    List (JSArray α) × Nat :=
  (heap ++ [seededShuffle (heap.getD r emptyJSArray) seed], heap.length)

/-! ### Arithmetic helpers -/

/-- The JS `%` takes the sign of the dividend: on a non-positive
dividend the result is non-positive. -/
theorem tmod_nonpos (b : Int) : ∀ {a : Int}, a ≤ 0 → Int.tmod a b ≤ 0
  | Int.ofNat 0, _ => by simp
  | Int.ofNat (m + 1), h => by
    exact absurd h (by
      have hpos : (0 : Int) < Int.ofNat (m + 1) := Int.ofNat_pos.mpr (Nat.succ_pos m)
      omega)
  | Int.negSucc m, _ => by
    cases b with
    | ofNat n => exact Int.neg_nonpos_of_nonneg (Int.ofNat_nonneg _)
    | negSucc n => exact Int.neg_nonpos_of_nonneg (Int.ofNat_nonneg _)

/-- The day `s * N + k` of a cycle has cycle seed `s`. -/
theorem seed_of_cycle_day (s : Int) (N k : Nat) (hN : 0 < N) (hk : k < N) :
    Int.fdiv (s * N + k) N = s := by
  have hN0 : (N : Int) ≠ 0 := by exact_mod_cast Nat.pos_iff_ne_zero.mp hN
  rw [Int.fdiv_eq_ediv _ (Int.ofNat_nonneg N),
    show s * (N : Int) + k = (k : Int) + s * N by ring,
    Int.add_mul_ediv_right _ _ hN0,
    Int.ediv_eq_zero_of_lt (Int.ofNat_nonneg k) (by exact_mod_cast hk)]
  omega

/-- The day `s * N + k` of a non-negative cycle has position `k`. -/
theorem pos_of_cycle_day (s : Int) (N k : Nat) (hs : 0 ≤ s) (hk : k < N) :
    Int.tmod (s * N + k) N = k := by
  have h0 : 0 ≤ s * (N : Int) + k :=
    add_nonneg (mul_nonneg hs (Int.ofNat_nonneg N)) (Int.ofNat_nonneg k)
  rw [Int.tmod_eq_emod h0 (Int.ofNat_nonneg N),
    show s * (N : Int) + k = (k : Int) + (N : Int) * s by ring,
    Int.add_mul_emod_self_left]
  exact Int.emod_eq_of_lt (Int.ofNat_nonneg k) (by exact_mod_cast hk)

/-- On non-negative states the code's generator step agrees with the
spec's (truncated and Euclidean remainder coincide there). -/
theorem lcgStep_eq_spec {r : Int} (h : 0 ≤ r) : lcgStep r = specLcgStep r :=
  Int.tmod_eq_emod
    (add_nonneg (mul_nonneg h (by norm_num)) (by norm_num)) (by norm_num)

theorem specLcgStep_nonneg (r : Int) : 0 ≤ specLcgStep r :=
  Int.emod_nonneg _ (by norm_num)

theorem specLcgStep_lt (r : Int) : specLcgStep r < 233280 :=
  Int.emod_lt_of_pos _ (by norm_num)

/-- The drawn index is non-negative when the state is. -/
theorem draw_nonneg {r : Int} (h : 0 ≤ r) (i : Nat) :
    0 ≤ Int.fdiv (r * ((i : Int) + 2)) 233280 := by
  rw [Int.fdiv_eq_ediv _ (by norm_num)]
  exact Int.ediv_nonneg (mul_nonneg h (by positivity)) (by norm_num)

/-- The drawn index is at most the current loop index. -/
theorem draw_le {r : Int} (h1 : r < 233280) (i : Nat) :
    Int.fdiv (r * ((i : Int) + 2)) 233280 ≤ (i : Int) + 1 := by
  rw [Int.fdiv_eq_ediv _ (by norm_num)]
  have hlt : r * ((i : Int) + 2) < ((i : Int) + 2) * 233280 := by
    calc r * ((i : Int) + 2) < 233280 * ((i : Int) + 2) :=
          mul_lt_mul_of_pos_right h1 (by positivity)
      _ = ((i : Int) + 2) * 233280 := by ring
  have := (Int.ediv_lt_iff_lt_mul (by norm_num : (0 : Int) < 233280)).mpr hlt
  omega

/-! ### The reference shuffle is a permutation -/

theorem length_listSwap (l : List α) (i j : Nat) :
    (listSwap l i j).length = l.length := by
  unfold listSwap
  split <;> simp

/-- Pulling the `m`-th element to the front while writing `a` into its
slot is a permutation of putting `a` in front. -/
theorem cons_get_set_perm : ∀ (l : List α) (m : Nat) (h : m < l.length) (a : α),
    (l.get ⟨m, h⟩ :: l.set m a).Perm (a :: l)
  | b :: tl, 0, _, a => List.Perm.swap a b tl
  | b :: tl, m + 1, h, a => by
    have hm : m < tl.length := by simpa using h
    have ih := cons_get_set_perm tl m hm a
    have s1 : (tl.get ⟨m, hm⟩ :: b :: tl.set m a).Perm
        (b :: tl.get ⟨m, hm⟩ :: tl.set m a) := List.Perm.swap b _ _
    have s2 : (b :: tl.get ⟨m, hm⟩ :: tl.set m a).Perm (b :: a :: tl) :=
      ih.cons b
    have s3 : (b :: a :: tl).Perm (a :: b :: tl) := List.Perm.swap a b tl
    exact (s1.trans s2).trans s3

/-- Exchanging two in-range slots of a list is a permutation. -/
theorem set_set_perm : ∀ (l : List α) (i j : Nat) (hi : i < l.length)
    (hj : j < l.length),
    ((l.set i (l.get ⟨j, hj⟩)).set j (l.get ⟨i, hi⟩)).Perm l
  | a :: tl, 0, 0, _, _ => by simp
  | a :: tl, 0, j + 1, hi, hj => by
    simpa using cons_get_set_perm tl j (by simpa using hj) a
  | a :: tl, i + 1, 0, hi, hj => by
    simpa using cons_get_set_perm tl i (by simpa using hi) a
  | a :: tl, i + 1, j + 1, hi, hj => by
    simpa using
      (set_set_perm tl i j (by simpa using hi) (by simpa using hj)).cons a

theorem listSwap_perm (l : List α) (i j : Nat) : (listSwap l i j).Perm l := by
  unfold listSwap
  split
  · next x y h1 h2 =>
    obtain ⟨hi, hx⟩ := List.getElem?_eq_some_iff.mp h1
    obtain ⟨hj, hy⟩ := List.getElem?_eq_some_iff.mp h2
    subst hx; subst hy
    simpa using set_set_perm l i j hi hj
  · exact List.Perm.refl l

theorem specFyLoop_length : ∀ (i : Nat) (l : List α) (s : Int),
    (specFyLoop l s i).1.length = l.length
  | 0, _, _ => rfl
  | i + 1, l, s => by
    simp only [specFyLoop]
    rw [specFyLoop_length i, length_listSwap]

theorem specFyLoop_perm : ∀ (i : Nat) (l : List α) (s : Int),
    (specFyLoop l s i).1.Perm l
  | 0, l, _ => List.Perm.refl l
  | i + 1, l, s => by
    simp only [specFyLoop]
    exact (specFyLoop_perm i _ _).trans (listSwap_perm _ _ _)

theorem specShuffle_length (l : List α) (seed : Int) :
    (specShuffle l seed).length = l.length :=
  specFyLoop_length _ _ _

theorem specShuffle_perm (l : List α) (seed : Int) :
    (specShuffle l seed).Perm l :=
  specFyLoop_perm _ _ _

/-! ### Bridging the code's store-level loop and the reference loop -/

theorem getElem?_listSwap (l : List α) {i j : Nat} (hi : i < l.length)
    (hj : j < l.length) (k : Nat) :
    (listSwap l i j)[k]? =
      if k = j then l[i]? else if k = i then l[j]? else l[k]? := by
  simp only [listSwap, List.getElem?_eq_getElem hi, List.getElem?_eq_getElem hj]
  by_cases hkj : k = j
  · subst hkj
    rw [if_pos rfl, List.getElem?_set_self (by simpa using hj)]
  · by_cases hki : k = i
    · subst hki
      rw [if_neg hkj, if_pos rfl,
        List.getElem?_set_ne (fun h => hkj h.symm),
        List.getElem?_set_self hi]
    · rw [if_neg hkj, if_neg hki,
        List.getElem?_set_ne (fun h => hkj h.symm),
        List.getElem?_set_ne (fun h => hki h.symm)]

/-- An in-range swap preserves the store/list agreement: the JS
destructuring swap on the property store corresponds to the list swap. -/
theorem storeRel_swap {st : Int → Option α} {l : List α}
    (hrel : StoreRel st l) {i : Nat} {jI : Int}
    (hi : i + 1 < l.length) (hj0 : 0 ≤ jI) (hjle : jI ≤ (i : Int) + 1) :
    StoreRel (jsSwap st ((i : Int) + 1) jI) (listSwap l (i + 1) jI.toNat) := by
  have hji : (jI.toNat : Int) = jI := Int.toNat_of_nonneg hj0
  have hjN : jI.toNat < l.length := by omega
  intro k
  simp only [jsSwap]
  rw [getElem?_listSwap l hi hjN k.toNat]
  by_cases hk0 : 0 ≤ k
  · have hkt : ((k.toNat : Nat) : Int) = k := Int.toNat_of_nonneg hk0
    by_cases hki : k = (i : Int) + 1
    · have hktn : k.toNat = i + 1 := by omega
      rw [if_pos hki, hrel jI, if_pos hj0, if_pos hk0]
      by_cases hje : k.toNat = jI.toNat
      · rw [if_pos hje, ← hje, hktn]
      · rw [if_neg hje, if_pos hktn]
    · by_cases hkj : k = jI
      · have hktn : k.toNat = jI.toNat := by rw [hkj]
        have hiN : ((i : Int) + 1).toNat = i + 1 := by omega
        rw [if_neg hki, if_pos hkj, hrel ((i : Int) + 1),
          if_pos (by positivity), hiN, if_pos hk0, if_pos hktn]
      · have h1 : k.toNat ≠ jI.toNat := by omega
        have h2 : k.toNat ≠ i + 1 := by omega
        rw [if_neg hki, if_neg hkj, hrel k, if_pos hk0, if_pos hk0,
          if_neg h1, if_neg h2]
  · have h1 : k ≠ (i : Int) + 1 := by omega
    have h2 : k ≠ jI := by omega
    rw [if_neg h1, if_neg h2, hrel k, if_neg hk0, if_neg hk0]

/-- Main loop bridge: started from agreeing states with a non-negative
generator state, the code's loop and the reference loop stay in
agreement, index by index, and end with the same generator state. -/
theorem fyLoop_bridge : ∀ (i : Nat) (l : List α) (st : Int → Option α)
    (rnd : Int), 0 ≤ rnd → i < l.length → StoreRel st l →
    StoreRel (fyLoop st rnd i).1 (specFyLoop l rnd i).1 ∧
      (fyLoop st rnd i).2 = (specFyLoop l rnd i).2
  | 0, _, _, _, _, _, hrel => ⟨hrel, rfl⟩
  | i + 1, l, st, rnd, hrnd, hi, hrel => by
    have hstep : lcgStep rnd = specLcgStep rnd := lcgStep_eq_spec hrnd
    have hr0 : 0 ≤ specLcgStep rnd := specLcgStep_nonneg rnd
    have hrlt : specLcgStep rnd < 233280 := specLcgStep_lt rnd
    have hj0 : 0 ≤ Int.fdiv (specLcgStep rnd * ((i : Int) + 2)) 233280 :=
      draw_nonneg hr0 i
    have hjle : Int.fdiv (specLcgStep rnd * ((i : Int) + 2)) 233280
        ≤ (i : Int) + 1 := draw_le hrlt i
    have hrel' := storeRel_swap hrel hi hj0 hjle
    have hlen := length_listSwap l (i + 1)
      (Int.fdiv (specLcgStep rnd * ((i : Int) + 2)) 233280).toNat
    have ih := fyLoop_bridge i _ _ (specLcgStep rnd) hr0
      (by rw [hlen]; omega) hrel'
    simp only [fyLoop, specFyLoop, hstep]
    exact ih

/-- The copied store of a plain array literal agrees with the list. -/
theorem storeRel_init (l : List α) :
    StoreRel ((JSArray.ofList l).copy).store l := by
  intro k
  simp only [JSArray.copy, JSArray.ofList]
  by_cases hk : 0 ≤ k
  · by_cases hkl : k < (l.length : Int)
    · simp [hk, hkl]
    · have : l.length ≤ k.toNat := by omega
      simp [hk, hkl, List.getElem?_eq_none this]
  · simp [hk]

/-- For a non-negative seed the shuffled array's store is exactly the
reference permutation, slot by slot. -/
theorem seededShuffle_storeRel (l : List α) {seed : Int} (h : 0 ≤ seed) :
    StoreRel (seededShuffle (JSArray.ofList l) seed).store
      (specShuffle l seed) := by
  cases l with
  | nil =>
    intro k
    simp [seededShuffle, fyLoop, JSArray.copy, JSArray.ofList, specShuffle,
      specFyLoop]
  | cons a tl =>
    exact (fyLoop_bridge ((a :: tl).length - 1) (a :: tl) _ seed h
      (by simp) (storeRel_init (a :: tl))).1

theorem seededShuffle_len (l : List α) (seed : Int) :
    (seededShuffle (JSArray.ofList l) seed).len = l.length := rfl

/-- For a non-negative seed the element slots of the shuffled array are
exactly the reference permutation. -/
theorem seededShuffle_toList_eq (l : List α) {seed : Int} (h : 0 ≤ seed) :
    (seededShuffle (JSArray.ofList l) seed).toList
      = (specShuffle l seed).map some := by
  have hrel := seededShuffle_storeRel l h
  have hlen := specShuffle_length l seed
  apply List.ext_getElem?
  intro n
  simp only [JSArray.toList, List.getElem?_map, seededShuffle_len]
  by_cases hn : n < l.length
  · rw [List.getElem?_range hn, Option.map_some', hrel (Int.ofNat n)]
    have h0 : (0 : Int) ≤ Int.ofNat n := Int.ofNat_nonneg n
    have htn : (Int.ofNat n).toNat = n := rfl
    rw [if_pos h0, htn, List.getElem?_eq_getElem (by omega)]
    rfl
  · have h1 : (List.range l.length)[n]? = none :=
      List.getElem?_eq_none (by simpa using Nat.le_of_not_lt hn)
    have h2 : (specShuffle l seed)[n]? = none :=
      List.getElem?_eq_none (by omega)
    rw [h1, h2]
    rfl

/-! ### Values in the store only move around -/

/-- Every defined value in the store after the loop was a defined value
of the initial store: the loop only moves values (or `undefined`) around. -/
theorem fyLoop_store_sub (P : α → Prop) : ∀ (i : Nat) (st : Int → Option α)
    (rnd : Int), (∀ k a, st k = some a → P a) →
    ∀ k a, (fyLoop st rnd i).1 k = some a → P a
  | 0, _, _, h => h
  | i + 1, st, rnd, h => by
    simp only [fyLoop]
    apply fyLoop_store_sub P i _ _
    intro k a hk
    simp only [jsSwap] at hk
    split at hk
    · exact h _ _ hk
    · split at hk
      · exact h _ _ hk
      · exact h _ _ hk

/-- Defined values of a plain array literal's copied store are list
elements. -/
theorem copy_store_mem (l : List α) (k : Int) (a : α)
    (h : ((JSArray.ofList l).copy).store k = some a) : a ∈ l := by
  simp only [JSArray.copy, JSArray.ofList] at h
  split at h
  · split at h
    · exact List.getElem?_mem h
    · exact absurd h (by simp)
  · exact absurd h (by simp)

/-- Defined values of a shuffled array's store are elements of the
original collection, whatever the seed. -/
theorem seededShuffle_store_mem (l : List α) (seed : Int) (k : Int) (a : α)
    (h : (seededShuffle (JSArray.ofList l) seed).store k = some a) : a ∈ l :=
  fyLoop_store_sub (fun a => a ∈ l) _ _ _ (copy_store_mem l) k a h

/-! ### Claims -/

/-- C1 (amended to non-negative cycle seeds): for a non-empty collection
of length `N` and a cycle seed `s ≥ 0`, the `N` consecutive dates whose
day counts are `s*N + k` (`k = 0 .. N-1`) all have cycle seed `s`, get
position `k` in increasing date order — hence pairwise distinct
positions — and `selectByDate` returns exactly slot `k` of the (fixed)
permuted collection, so every slot is covered exactly once. -/
theorem selectByDate_cycle_coverage (l : List α) (hl : l ≠ []) (s : Int)
    (hs : 0 ≤ s) (k : Nat) (hk : k < l.length) (t : Int)
    (ht : daysSinceEpoch t = s * l.length + k) (a : α)
    (ha : (specShuffle l s)[k]? = some a) :
    getCycleSeed t l.length = s ∧ getDayInCycle t l.length = (k : Int) ∧
      selectByDate l t = JSResult.value a := by
  have hN : 0 < l.length := List.length_pos.mpr hl
  have h1 : getCycleSeed t l.length = s := by
    unfold getCycleSeed
    rw [ht]
    exact seed_of_cycle_day s l.length k hN hk
  have h2 : getDayInCycle t l.length = (k : Int) := by
    unfold getDayInCycle
    rw [ht]
    exact pos_of_cycle_day s l.length k hs hk
  refine ⟨h1, h2, ?_⟩
  unfold selectByDate
  rw [if_neg (by omega), h1, h2]
  have hrel := seededShuffle_storeRel l hs
  rw [hrel (k : Int), if_pos (by positivity)]
  have htn : ((k : Int)).toNat = k := by omega
  rw [htn, ha]

/-- C1 counterexample: for cycle seed `-1` and the collection `[0, 1]`,
the two dates of the cycle (day counts `-2` and `-1`) select
`.value 1` and `.undef`: the slot holding `0` is never selected, so the
claim, quantified over every cycle seed, fails at this instance. -/
theorem selectByDate_cycle_coverage_cex :
    getCycleSeed (-172800000) 2 = -1 ∧ getCycleSeed (-86400000) 2 = -1 ∧
      daysSinceEpoch (-172800000) = -2 ∧ daysSinceEpoch (-86400000) = -1 ∧
      getDayInCycle (-86400000) 2 = -1 ∧
      selectByDate [0, 1] (-172800000) = JSResult.value 1 ∧
      selectByDate [0, 1] (-86400000) = JSResult.undef := by decide

/-- C1 witness: collection `[10, 20, 30]`, cycle seed `3`, the three
dates with day counts `9, 10, 11`. -/
theorem selectByDate_cycle_coverage_witness :
    getCycleSeed 864000000 3 = 3 ∧ getDayInCycle 864000000 3 = 1 ∧
      selectByDate [10, 20, 30] 864000000 = JSResult.value 30 := by
  have h := selectByDate_cycle_coverage [10, 20, 30] (by decide) 3 (by decide)
    1 (by decide) 864000000 (by decide) 30 (by decide)
  exact ⟨h.1, h.2.1, h.2.2⟩

/-- C2 (amended to non-negative seeds): for every collection and every
seed `≥ 0`, `seededShuffle` keeps the length and its element slots are a
permutation of the collection (same multiset, every element once). -/
theorem seededShuffle_is_permutation (l : List α) (seed : Int)
    (h : 0 ≤ seed) :
    (seededShuffle (JSArray.ofList l) seed).len = l.length ∧
      (seededShuffle (JSArray.ofList l) seed).toList.Perm (l.map some) :=
  ⟨rfl, by
    rw [seededShuffle_toList_eq l h]
    exact (specShuffle_perm l seed).map some⟩

/-- C2 counterexample: with seed `-6` the generator state goes negative,
the JS `%` keeps it negative, the drawn index is `-1`, and the swap
writes `undefined` into slot 1: `seededShuffle([0,1], -6)` has element
slots `[0, undefined]`, not a permutation of `[0, 1]`. -/
theorem seededShuffle_is_permutation_cex :
    (seededShuffle (JSArray.ofList [0, 1]) (-6)).toList = [some 0, none] ∧
      ¬ (seededShuffle (JSArray.ofList [0, 1]) (-6)).toList.Perm
          ([0, 1].map some) := by decide

/-- C2 witness: collection `[4, 5, 6]`, seed `7`. -/
theorem seededShuffle_is_permutation_witness :
    (seededShuffle (JSArray.ofList [4, 5, 6]) 7).len = 3 ∧
      (seededShuffle (JSArray.ofList [4, 5, 6]) 7).toList.Perm
        ([4, 5, 6].map some) :=
  seededShuffle_is_permutation [4, 5, 6] 7 (by decide)

/-- C3 (amended to non-negative seeds): `seededShuffle` implements the
spec's reference algorithm — LCG state stepping by
`(state * 9301 + 49297) mod 233280` with fractions in `[0, 1)` driving
a reverse Fisher-Yates loop — whenever the seed is non-negative. -/
theorem seededShuffle_refines_spec (l : List α) (seed : Int)
    (h : 0 ≤ seed) :
    (seededShuffle (JSArray.ofList l) seed).len = l.length ∧
      (seededShuffle (JSArray.ofList l) seed).toList
        = (specShuffle l seed).map some :=
  ⟨rfl, seededShuffle_toList_eq l h⟩

/-- C3 counterexample: at seed `-6` the code's truncated `%` yields the
negative state `-6509` and a negative fraction, so the drawn index is
`-1` where the reference (fraction in `[0, 1)`) draws `1`: the results
differ on `[0, 1]`. -/
theorem seededShuffle_refines_spec_cex :
    (seededShuffle (JSArray.ofList [0, 1]) (-6)).toList
      ≠ (specShuffle [0, 1] (-6)).map some := by decide

/-- C3 witness: collection `[1, 2, 3]`, seed `3`. -/
theorem seededShuffle_refines_spec_witness :
    (seededShuffle (JSArray.ofList [1, 2, 3]) 3).len = 3 ∧
      (seededShuffle (JSArray.ofList [1, 2, 3]) 3).toList
        = (specShuffle [1, 2, 3] 3).map some :=
  seededShuffle_refines_spec [1, 2, 3] 3 (by decide)

/-- C4 (code bug): the claim — matching the function's own doc comment
"Index within current cycle (0 to arrayLength-1)" — requires a
floored/Euclidean modulo, but the code uses the JS truncated `%`: on the
date with epoch millis `-86400000` (day count `-1`) and `N = 2` the
position is `-1`, outside `[0, 2)` (Euclidean would give `1`); the cycle
seed half of the claim does hold (`Math.floor` is the mathematical
floor: seed `-1 = floor(-1/2)`). -/
theorem getDayInCycle_negative_day_bug :
    daysSinceEpoch (-86400000) = -1 ∧
      getDayInCycle (-86400000) 2 = -1 ∧
      ¬ (0 ≤ getDayInCycle (-86400000) 2) ∧
      Int.emod (-1) 2 = 1 ∧
      getCycleSeed (-86400000) 2 = -1 := by decide

/-- C5: `selectByDate` is a pure function of the collection and the
date's day count: no ambient randomness or hidden state; in particular
two calls on the same arguments agree, and any two epoch-millis values
of the same day agree. -/
theorem selectByDate_deterministic (l : List α) (t t' : Int)
    (h : daysSinceEpoch t = daysSinceEpoch t') :
    selectByDate l t = selectByDate l t' := by
  unfold selectByDate getCycleSeed getDayInCycle
  rw [h]

/-- C5 witness: two millisecond instants of day 0. -/
theorem selectByDate_deterministic_witness :
    daysSinceEpoch 0 = daysSinceEpoch 86399999 ∧
      selectByDate [1, 2] 0 = selectByDate [1, 2] 86399999 :=
  ⟨by decide, selectByDate_deterministic [1, 2] 0 86399999 (by decide)⟩

/-- C6: on an empty collection `selectByDate` returns the explicit
`null` value for every date — a value, not a fault. -/
theorem selectByDate_empty (t : Int) :
    selectByDate ([] : List α) t = JSResult.null := rfl

/-- C7: concrete scenario — for day count `10` and `["A","B","C"]` the
code computes cycle seed `3 = floor(10/3)` and position `1 = 10 mod 3`,
and returns slot 1 of the seed-3 shuffle, which is `"C"`. -/
theorem selectByDate_concrete_scenario :
    daysSinceEpoch 864000000 = 10 ∧
      getCycleSeed 864000000 3 = 3 ∧
      getDayInCycle 864000000 3 = 1 ∧
      (seededShuffle (JSArray.ofList ["A", "B", "C"]) 3).store 1 = some "C" ∧
      selectByDate ["A", "B", "C"] 864000000 = JSResult.value "C" := by
  decide

/-- C8: on a collection of length 0 or 1 the shuffle loop does not run,
and the result is the copied input, unchanged, for every seed. -/
theorem seededShuffle_short_identity (l : List α) (seed : Int)
    (h : l.length ≤ 1) :
    (seededShuffle (JSArray.ofList l) seed).len = l.length ∧
      (seededShuffle (JSArray.ofList l) seed).toList = l.map some := by
  match l, h with
  | [], _ => exact ⟨rfl, rfl⟩
  | [a], _ => exact ⟨rfl, rfl⟩

/-- C8 witness: the singleton `[5]` with seed `7`. -/
theorem seededShuffle_short_identity_witness :
    (seededShuffle (JSArray.ofList [5]) 7).len = 1 ∧
      (seededShuffle (JSArray.ofList [5]) 7).toList = [5].map some :=
  seededShuffle_short_identity [5] 7 (by decide)

/-- C9: at the heap level, a call to `seededShuffle` never mutates any
pre-existing array object (in particular not its argument) and returns
a freshly allocated reference, distinct from the argument reference,
holding the shuffled copy. -/
theorem seededShuffleCall_frame (heap : List (JSArray α)) (r : Nat)
    (seed : Int) (hr : r < heap.length) :
    (seededShuffleCall heap r seed).2 ≠ r ∧
      (∀ i, i < heap.length →
        (seededShuffleCall heap r seed).1[i]? = heap[i]?) ∧
      (seededShuffleCall heap r seed).1[(seededShuffleCall heap r seed).2]?
        = some (seededShuffle (heap.getD r emptyJSArray) seed) := by
  refine ⟨by simp only [seededShuffleCall]; omega, ?_, ?_⟩
  · intro i hi
    simp only [seededShuffleCall]
    exact List.getElem?_append_left hi
  · simp only [seededShuffleCall]
    exact List.getElem?_concat_length heap _

/-- C9 witness: a one-object heap. -/
theorem seededShuffleCall_frame_witness :
    (0 : Nat) < 1 ∧ (seededShuffleCall [JSArray.ofList [1, 2]] 0 5).2 ≠ 0 :=
  ⟨by decide, (seededShuffleCall_frame [JSArray.ofList [1, 2]] 0 5 (by decide)).1⟩

/-- C10 (amended): for a non-empty collection and a date with negative
day count not a multiple of `N`, the day index is indeed negative and
the result is never the documented empty-collection `null`; but it is
not always `undefined`: it is either `undefined` or an element of the
collection that a negative-seed shuffle parked at that negative index. -/
theorem selectByDate_negative_day (l : List α) (hl : l ≠ []) (t : Int)
    (hneg : daysSinceEpoch t < 0)
    (hnm : Int.tmod (daysSinceEpoch t) l.length ≠ 0) :
    getDayInCycle t l.length < 0 ∧
      selectByDate l t ≠ JSResult.null ∧
      (selectByDate l t = JSResult.undef ∨
        ∃ a ∈ l, selectByDate l t = JSResult.value a) := by
  have hN : 0 < l.length := List.length_pos.mpr hl
  have h1 : getDayInCycle t l.length < 0 := by
    have h := tmod_nonpos (l.length : Int) (le_of_lt hneg)
    unfold getDayInCycle
    rcases lt_or_eq_of_le h with h' | h'
    · exact h'
    · exact absurd h' hnm
  refine ⟨h1, ?_⟩
  unfold selectByDate
  rw [if_neg (by omega)]
  cases hsto : (seededShuffle (JSArray.ofList l)
      (getCycleSeed t l.length)).store (getDayInCycle t l.length) with
  | none => exact ⟨by simp, Or.inl rfl⟩
  | some a =>
    exact ⟨by simp, Or.inr ⟨a,
      seededShuffle_store_mem l _ _ a hsto, rfl⟩⟩

/-- C10 counterexample: day count `-11`, collection `[0, 1]`: the seed
is `-6`, the shuffle parks the element `1` at property `-1`, the day
index is `-1`, and `selectByDate` returns `.value 1` — an element of
the collection, not an undefined/no-value result. -/
theorem selectByDate_negative_day_cex :
    daysSinceEpoch (-950400000) = -11 ∧
      getCycleSeed (-950400000) 2 = -6 ∧
      getDayInCycle (-950400000) 2 = -1 ∧
      selectByDate [0, 1] (-950400000) = JSResult.value 1 := by decide

/-- C10 witness: day count `-1`, collection `[0, 1]`. -/
theorem selectByDate_negative_day_witness :
    daysSinceEpoch (-86400000) < 0 ∧
      Int.tmod (daysSinceEpoch (-86400000)) 2 ≠ 0 ∧
      getDayInCycle (-86400000) 2 < 0 ∧
      selectByDate [0, 1] (-86400000) ≠ JSResult.null := by
  have h := selectByDate_negative_day [0, 1] (by decide) (-86400000)
    (by decide) (by decide)
  exact ⟨by decide, by decide, h.1, h.2.1⟩

end PhotoSelection
